import Mathlib

/-!
Verification of the playcheck preflight core: a shallow embedding of the
finding/severity data model (`internal/preflight/types.go`), the scan
orchestrator with deduplication and sorting (`internal/preflight/register.go`),
the manifest model and rule validators (`internal/manifest`), and the
position-index / tolerant-parser helpers (`internal/manifest/parser.go`).
Go machine integers are modelled as `Int` (or `Nat` where the source can only
produce non-negative values), Go slices as `List`, Go `*T` as `Option T`,
and fallible functions return `Except`/`Option`.
-/

namespace Playcheck

/-! ## Severity, Location, Finding (`internal/preflight/types.go`) -/

/-- Go `type Severity int` with constants `iota` = 0..3. -/
abbrev Severity := Int

def SeverityInfo : Severity := 0
def SeverityWarning : Severity := 1
def SeverityError : Severity := 2
def SeverityCritical : Severity := 3

/-- Go `Location{File string; Line int; Col int}`.  Lines and columns come
from `offsetToLine` and are never negative, so they are modelled as `Nat`. -/
structure Location where
  file : String := ""
  line : Nat := 0
  col : Nat := 0
deriving DecidableEq, Repr

/-- Go `Location.String()`. -/
def Location.str (l : Location) : String :=
  if l.line > 0 then
    if l.col > 0 then l.file ++ ":" ++ toString l.line ++ ":" ++ toString l.col
    else l.file ++ ":" ++ toString l.line
  else l.file

/-- Go `Finding` struct. -/
structure Finding where
  checkID : String := ""
  title : String := ""
  description : String := ""
  severity : Severity := 0
  location : Location := {}
  suggestion : String := ""
deriving DecidableEq, Repr

/-! ## Deduplication (`deduplicateFindings` in `internal/preflight/register.go`) -/

/-- The key the Go code builds for the `seen` map: `(CheckID, Location.String())`. -/
def dedupKey (f : Finding) : String × String := (f.checkID, f.location.str)

/-- The loop of `deduplicateFindings`: `seen` holds the keys already emitted. -/
def deduplicateFindingsGo (seen : List (String × String)) : List Finding → List Finding
  | [] => []
  | f :: rest =>
    if dedupKey f ∈ seen then deduplicateFindingsGo seen rest
    else f :: deduplicateFindingsGo (dedupKey f :: seen) rest

/-- Go `deduplicateFindings`: drop every finding whose `(CheckID, Location.String())`
key was already seen.  (The Go early-return on an empty slice returns the same
empty list, which coincides with running the loop.) -/
def deduplicateFindings (findings : List Finding) : List Finding :=
  deduplicateFindingsGo [] findings

/-! ## Sorting (the `sort.Slice` comparator in `Runner.Run`) -/

/-- The `less` closure passed to `sort.Slice` in `Runner.Run`:
severity descending, then `CheckID` ascending, then `Location.String()` ascending. -/
def findingLess (a b : Finding) : Bool :=
  if a.severity ≠ b.severity then decide (a.severity > b.severity)
  else if a.checkID ≠ b.checkID then decide (a.checkID < b.checkID)
  else decide (a.location.str < b.location.str)

/-- `a` may precede `b` in a list sorted by `findingLess` (the non-strict
companion of the comparator). -/
def findingLE (a b : Finding) : Prop := findingLess b a = false

instance : DecidableRel findingLE := fun a b => by
  unfold findingLE; infer_instance

/-- `sort.Slice` guarantees some permutation ordered by the comparator; we
model it as an insertion sort by `findingLE`. -/
def sortFindings (l : List Finding) : List Finding :=
  List.insertionSort findingLE l

/-! ## The orchestrator (`Runner.Run` in `internal/preflight/register.go`) -/

/-- Go `CheckResult`.  The Go `error` value is modelled as `Option String`
(`none` = nil error). -/
structure CheckResult where
  checkID : String := ""
  passed : Bool := false
  findings : List Finding := []
  err : Option String := none
deriving DecidableEq, Repr

/-- A registered checker: its stable `ID()` and its `Run(projectDir)` method
returning `(*CheckResult, error)`, i.e. `Option CheckResult × Option String`. -/
structure Checker where
  id : String
  run : String → Option CheckResult × Option String

/-- The normalisation `Runner.Run` applies to one checker's raw return value:
a nil result is replaced by `&CheckResult{CheckID: checker.ID()}`, and a
non-nil error is stored into the result's `Err` field. -/
def runOutcome (c : Checker) (dir : String) : CheckResult :=
  let cr := (c.run dir).1.getD { checkID := c.id }
  match (c.run dir).2 with
  | some e => { cr with err := some e }
  | none => cr

/-- The fields of Go `ScanResult` (timing metadata is outside the embedding;
`ByScanner` is the map from checker id to its outcome). -/
structure ScanResult where
  findings : List Finding := []
  byScanner : String → Option CheckResult := fun _ => none
  totalPassed : Nat := 0
  totalFailed : Nat := 0
  scannerIDs : List String := []
  projectPath : String := ""

/-- The merge performed under the mutex for one finished checker: store the
outcome into `ByScanner`, append its findings, bump the pass/fail totals. -/
def mergeStep (dir : String) (acc : ScanResult) (c : Checker) : ScanResult :=
  let cr := runOutcome c dir
  { acc with
    byScanner := fun i => if i = c.id then some cr else acc.byScanner i
    findings := acc.findings ++ cr.findings
    totalPassed := acc.totalPassed + (if cr.passed then 1 else 0)
    totalFailed := acc.totalFailed + (if cr.passed then 0 else 1) }

/-- `Runner.Run`: every checker's outcome is merged (the list order stands for
the completion order of the concurrent goroutines), then the aggregate
findings are deduplicated and sorted. -/
def runnerRun (checkers : List Checker) (dir : String) : ScanResult :=
  let init : ScanResult :=
    { scannerIDs := checkers.map Checker.id, projectPath := dir }
  let merged := checkers.foldl (mergeStep dir) init
  { merged with findings := sortFindings (deduplicateFindings merged.findings) }

/-! ## Manifest model (`internal/manifest/parser.go`) -/

/-- Go `Permission` (a `<uses-permission>` element). -/
structure Permission where
  name : String := ""
  maxSdk : Int := 0
  line : Nat := 0
  required : Bool := false
deriving DecidableEq, Repr

/-- Go `IntentFilter`. -/
structure IntentFilter where
  actions : List String := []
  categories : List String := []
  line : Nat := 0
deriving DecidableEq, Repr

/-- The Go source declares four structurally identical component records
(`Activity`, `Service`, `Receiver`, `Provider`); they are modelled by one
structure.  `exported : Option Bool` is the Go `Exported *bool` tri-state
(`none` = attribute absent). -/
structure Component where
  name : String := ""
  exported : Option Bool := none
  intentFilters : List IntentFilter := []
  line : Nat := 0
deriving DecidableEq, Repr

/-- Go `AndroidManifest` (the Manifest Model).  Field defaults are the Go
zero values, which is what a freshly allocated model holds. -/
structure AndroidManifest where
  packageName : String := ""
  versionCode : Int := 0
  versionName : String := ""
  minSdkVersion : Int := 0
  targetSdkVersion : Int := 0
  compileSdkVersion : Int := 0
  usesCleartext : Bool := false
  hasCleartext : Bool := false
  permissions : List Permission := []
  activities : List Component := []
  services : List Component := []
  receivers : List Component := []
  providers : List Component := []
  filePath : String := ""
deriving DecidableEq, Repr

/-- Go `isLauncherActivity`: some single intent filter of the activity holds
both the MAIN action and the LAUNCHER category. -/
def isLauncherActivity (a : Component) : Bool :=
  a.intentFilters.any fun f =>
    (f.actions.any fun action => action = "android.intent.action.MAIN") &&
    (f.categories.any fun cat => cat = "android.intent.category.LAUNCHER")

/-- Go `AndroidManifest.HasLauncherActivity` (only activities are examined). -/
def hasLauncherActivity (m : AndroidManifest) : Bool :=
  m.activities.any isLauncherActivity

/-! ## Rule identifiers and the dangerous-permission table (`rules.go`) -/

def RuleTargetSDK : String := "SDK001"
def RuleDangerousPerm : String := "DP001"
def RuleLocationPerm : String := "DP002"
def RuleCameraPerm : String := "DP003"
def RuleContactsPerm : String := "DP004"
def RuleStoragePerm : String := "DP005"
def RulePhonePerm : String := "DP006"
def RuleCalendarPerm : String := "DP007"
def RuleExportedComponent : String := "MV001"
def RuleLauncherActivity : String := "MV002"
def RuleCleartextTraffic : String := "MV004"
def RuleComponentSecurity : String := "MC001"

/-- Go `MinTargetSDKVersion`. -/
def MinTargetSDKVersion : Int := 35

/-- The value type of the Go `dangerousPermissions` map. -/
structure PermInfo where
  ruleID : String
  category : String
  description : String
deriving DecidableEq, Repr

/-- The Go `dangerousPermissions` map as a lookup function. -/
def dangerousPermissions (name : String) : Option PermInfo :=
  match name with
  | "android.permission.ACCESS_FINE_LOCATION" =>
      some ⟨RuleLocationPerm, "Location", "Fine location access requires prominent disclosure and runtime permission"⟩
  | "android.permission.ACCESS_COARSE_LOCATION" =>
      some ⟨RuleLocationPerm, "Location", "Coarse location access requires prominent disclosure"⟩
  | "android.permission.ACCESS_BACKGROUND_LOCATION" =>
      some ⟨RuleLocationPerm, "Location", "Background location requires additional justification for Play Store approval"⟩
  | "android.permission.CAMERA" =>
      some ⟨RuleCameraPerm, "Camera", "Camera access requires prominent disclosure"⟩
  | "android.permission.READ_CONTACTS" =>
      some ⟨RuleContactsPerm, "Contacts", "Contacts access requires prominent disclosure and justification"⟩
  | "android.permission.WRITE_CONTACTS" =>
      some ⟨RuleContactsPerm, "Contacts", "Write contacts access requires prominent disclosure and justification"⟩
  | "android.permission.READ_EXTERNAL_STORAGE" =>
      some ⟨RuleStoragePerm, "Storage", "Broad storage access; consider using scoped storage APIs instead"⟩
  | "android.permission.WRITE_EXTERNAL_STORAGE" =>
      some ⟨RuleStoragePerm, "Storage", "Broad storage write access; deprecated in favor of scoped storage"⟩
  | "android.permission.MANAGE_EXTERNAL_STORAGE" =>
      some ⟨RuleStoragePerm, "Storage", "All-files access requires Play Store policy justification"⟩
  | "android.permission.READ_PHONE_STATE" =>
      some ⟨RulePhonePerm, "Phone", "Phone state access includes device identifiers; requires justification"⟩
  | "android.permission.CALL_PHONE" =>
      some ⟨RulePhonePerm, "Phone", "Direct call permission requires prominent disclosure"⟩
  | "android.permission.READ_CALL_LOG" =>
      some ⟨RulePhonePerm, "Phone", "Call log access is restricted; requires default handler or Play Store exception"⟩
  | "android.permission.READ_CALENDAR" =>
      some ⟨RuleCalendarPerm, "Calendar", "Calendar read access requires prominent disclosure"⟩
  | "android.permission.WRITE_CALENDAR" =>
      some ⟨RuleCalendarPerm, "Calendar", "Calendar write access requires prominent disclosure"⟩
  | "android.permission.RECORD_AUDIO" =>
      some ⟨RuleDangerousPerm, "Microphone", "Microphone access requires prominent disclosure and runtime permission"⟩
  | "android.permission.READ_SMS" =>
      some ⟨RuleDangerousPerm, "SMS", "SMS read access is restricted; requires default handler or Play Store exception"⟩
  | "android.permission.SEND_SMS" =>
      some ⟨RuleDangerousPerm, "SMS", "SMS send access is restricted; requires default handler or Play Store exception"⟩
  | "android.permission.RECEIVE_SMS" =>
      some ⟨RuleDangerousPerm, "SMS", "SMS receive access is restricted; requires default handler or Play Store exception"⟩
  | "android.permission.BODY_SENSORS" =>
      some ⟨RuleDangerousPerm, "Sensors", "Body sensor access requires health-related disclosure"⟩
  | _ => none

/-- The cases of the `switch` in Go `severityForPermission`. -/
def restrictedPermissions : List String :=
  ["android.permission.READ_SMS",
   "android.permission.SEND_SMS",
   "android.permission.RECEIVE_SMS",
   "android.permission.READ_CALL_LOG",
   "android.permission.MANAGE_EXTERNAL_STORAGE",
   "android.permission.ACCESS_BACKGROUND_LOCATION"]

/-- Go `severityForPermission`: the restricted permissions are Critical,
every other matched permission is Warning. -/
def severityForPermission (permName : String) : Severity :=
  if permName ∈ restrictedPermissions then SeverityCritical else SeverityWarning

/-! ## Validator helpers (`validator.go` / `part_007`) -/

/-- Go `splitLast(s, sep)` for the single-character separator `"."` used in
the source: the substring after the last separator, or `""` when absent. -/
def splitLastDot (s : String) : String :=
  if s.data.contains '.' then
    String.mk (s.data.reverse.takeWhile (fun c => c ≠ '.')).reverse
  else ""

/-- Go `shortPermName`. -/
def shortPermName (fullName : String) : String :=
  if splitLastDot fullName ≠ "" then splitLastDot fullName else fullName

/-- Go `shortComponentName` (same body as `shortPermName`). -/
def shortComponentName (fullName : String) : String :=
  if splitLastDot fullName ≠ "" then splitLastDot fullName else fullName

/-! ## The five validators -/

/-- Go `Validator.CheckTargetSDK`. -/
def checkTargetSDK (m : AndroidManifest) : List Finding :=
  if m.targetSdkVersion = 0 then
    [{ checkID := RuleTargetSDK,
       title := "Missing targetSdkVersion",
       description := "targetSdkVersion is not set in the manifest. Play Store requires targetSdkVersion >= 35.",
       severity := SeverityCritical,
       location := { file := m.filePath },
       suggestion := "Set targetSdkVersion to 35 or higher in your build.gradle or AndroidManifest.xml." }]
  else if m.targetSdkVersion < MinTargetSDKVersion then
    [{ checkID := RuleTargetSDK,
       title := "targetSdkVersion " ++ toString m.targetSdkVersion ++ " is below required minimum",
       description := "targetSdkVersion is " ++ toString m.targetSdkVersion ++
         " but Play Store requires >= " ++ toString MinTargetSDKVersion ++ " for new apps and updates.",
       severity := SeverityCritical,
       location := { file := m.filePath },
       suggestion := "Update targetSdkVersion to " ++ toString MinTargetSDKVersion ++ " or higher." }]
  else []

/-- The finding built for one matched permission in
`Validator.CheckDangerousPermissions`. -/
def permFinding (filePath : String) (p : Permission) (info : PermInfo) : Finding :=
  { checkID := info.ruleID,
    title := "Dangerous permission: " ++ shortPermName p.name,
    description := info.description,
    severity := severityForPermission p.name,
    location := { file := filePath, line := p.line },
    suggestion := "Ensure " ++ info.category ++
      " permission usage complies with Play Store policies. Add prominent disclosure if required." }

/-- Go `Validator.CheckDangerousPermissions`: the append loop over the
declared permissions, skipping names outside the table. -/
def checkDangerousPermissions (m : AndroidManifest) : List Finding :=
  m.permissions.foldl
    (fun acc p =>
      match dangerousPermissions p.name with
      | none => acc
      | some info => acc ++ [permFinding m.filePath p info])
    []

/-- The `checkComponent` closure inside `Validator.CheckExportedComponents`. -/
def checkComponent (filePath name kind : String) (exported : Option Bool)
    (filters : List IntentFilter) (line : Nat) : List Finding :=
  if filters.length = 0 then []
  else
    match exported with
    | none =>
        [{ checkID := RuleExportedComponent,
           title := kind ++ " missing android:exported",
           description := "Component \"" ++ name ++
             "\" has intent-filters but does not set android:exported. This is required since Android 12 (API 31) and will cause installation failures.",
           severity := SeverityError,
           location := { file := filePath, line := line },
           suggestion := "Add android:exported=\"true\" or android:exported=\"false\" to the <" ++
             kind.toLower ++ "> element." }]
    | some true =>
        [{ checkID := RuleComponentSecurity,
           title := "Exported " ++ kind ++ ": " ++ shortComponentName name,
           description := "Component \"" ++ name ++
             "\" is exported and accessible to other apps. Ensure this is intentional and properly secured.",
           severity := SeverityInfo,
           location := { file := filePath, line := line },
           suggestion := "Review exported components to ensure they don\x27t expose sensitive functionality." }]
    | some false => []

/-- Go `Validator.CheckExportedComponents`: the four append loops, in source
order activities, services, receivers, providers. -/
def checkExportedComponents (m : AndroidManifest) : List Finding :=
  let fs := m.activities.foldl
    (fun acc a => acc ++ checkComponent m.filePath a.name "Activity" a.exported a.intentFilters a.line) []
  let fs := m.services.foldl
    (fun acc s => acc ++ checkComponent m.filePath s.name "Service" s.exported s.intentFilters s.line) fs
  let fs := m.receivers.foldl
    (fun acc r => acc ++ checkComponent m.filePath r.name "Receiver" r.exported r.intentFilters r.line) fs
  m.providers.foldl
    (fun acc p => acc ++ checkComponent m.filePath p.name "Provider" p.exported p.intentFilters p.line) fs

/-- Go `Validator.CheckLauncherActivity`. -/
def checkLauncherActivity (m : AndroidManifest) : List Finding :=
  if hasLauncherActivity m then []
  else
    [{ checkID := RuleLauncherActivity,
       title := "No launcher activity found",
       description := "The manifest does not define a launcher activity (an activity with ACTION_MAIN and CATEGORY_LAUNCHER). The app may not appear in the launcher.",
       severity := SeverityWarning,
       location := { file := m.filePath },
       suggestion := "Add an intent-filter with action MAIN and category LAUNCHER to your main activity." }]

/-- Go `Validator.CheckCleartextTraffic`. -/
def checkCleartextTraffic (m : AndroidManifest) : List Finding :=
  if !m.hasCleartext then
    if m.targetSdkVersion > 0 ∧ m.targetSdkVersion < 28 then
      [{ checkID := RuleCleartextTraffic,
         title := "Cleartext traffic may be enabled by default",
         description := "With targetSdkVersion < 28, cleartext traffic is allowed by default. Consider setting android:usesCleartextTraffic=\"false\".",
         severity := SeverityWarning,
         location := { file := m.filePath },
         suggestion := "Set android:usesCleartextTraffic=\"false\" in the <application> element or use a Network Security Config." }]
    else []
  else if m.usesCleartext then
    [{ checkID := RuleCleartextTraffic,
       title := "Cleartext traffic explicitly enabled",
       description := "android:usesCleartextTraffic is set to true, allowing unencrypted HTTP connections. This is a security risk and may trigger Play Store warnings.",
       severity := SeverityError,
       location := { file := m.filePath },
       suggestion := "Set android:usesCleartextTraffic=\"false\" and use HTTPS for all network communication." }]
  else []

/-- Go `Validator.ValidateAll`: the five validators in fixed order. -/
def validateAll (m : AndroidManifest) : List Finding :=
  checkTargetSDK m ++ checkDangerousPermissions m ++ checkExportedComponents m ++
    checkLauncherActivity m ++ checkCleartextTraffic m

/-- Go `ManifestScanner.Run`, abstracted over the outcome of `FindAndParse`
(file resolution is I/O): an error yields a failed `CheckResult` carrying the
error, a parsed manifest is validated. -/
def manifestScannerRun (parsed : Except String AndroidManifest) :
    Option CheckResult × Option String :=
  match parsed with
  | .error e => (some { checkID := "manifest", passed := false, err := some e }, some e)
  | .ok m =>
      let findings := validateAll m
      (some { checkID := "manifest", passed := findings.length = 0, findings := findings }, none)

/-! ## Position Index (`buildLineOffsets` / `offsetToLine`) -/

/-- The appends performed by the loop of Go `buildLineOffsets`: for every
newline byte at index `i`, the offset `i+1`. -/
def buildOffsetsFrom (i : Nat) : List Nat → List Int
  | [] => []
  | b :: rest => (if b = 10 then [((i : Int) + 1)] else []) ++ buildOffsetsFrom (i + 1) rest

/-- Go `buildLineOffsets`: the sentinel `0` followed by the start offset of
every further line. -/
def buildLineOffsets (data : List Nat) : List Int :=
  0 :: buildOffsetsFrom 0 data

/-- The binary-search loop of Go `offsetToLine` (`lo`/`hi` are Go ints, so
`hi` may reach `-1`; out-of-range indexing cannot happen in reachable states
and is modelled by `getD _ 0`). -/
def offsetToLineLoop (lineOffsets : List Int) (offset : Int) (lo hi : Int) : Int :=
  if lo ≤ hi then
    let mid := (lo + hi) / 2
    if lineOffsets.getD mid.toNat 0 ≤ offset then
      offsetToLineLoop lineOffsets offset (mid + 1) hi
    else
      offsetToLineLoop lineOffsets offset lo (mid - 1)
  else lo
termination_by (hi + 1 - lo).toNat
decreasing_by
  all_goals simp_wf
  all_goals omega

/-- Go `offsetToLine`: upper-bound binary search over the line-start offsets,
returning a 1-based line number. -/
def offsetToLine (lineOffsets : List Int) (offset : Int) : Int :=
  offsetToLineLoop lineOffsets offset 0 ((lineOffsets.length : Int) - 1)

/-! ## Structural parser (`Parse` and its attribute helpers) -/

/-- Models `strings.EqualFold` for the ASCII attribute values the source
compares (Unicode simple folding coincides with ASCII lower-casing on the
letters of `"true"`). -/
def equalFold (a b : String) : Bool :=
  a.data.map Char.toLower = b.data.map Char.toLower

/-- Decimal value of a digit string. -/
def digitsVal (cs : List Char) : Nat :=
  cs.foldl (fun acc c => acc * 10 + (c.toNat - 48)) 0

/-- Models `strconv.Atoi` with the discarded error of the source
(`v, _ := strconv.Atoi(s)`): a well-formed optionally signed decimal parses
to its value, anything else leaves the Go zero value `0`. -/
def atoi (s : String) : Int :=
  match s.data with
  | [] => 0
  | '+' :: rest =>
      if rest ≠ [] ∧ rest.all Char.isDigit then (digitsVal rest : Int) else 0
  | '-' :: rest =>
      if rest ≠ [] ∧ rest.all Char.isDigit then -(digitsVal rest : Int) else 0
  | cs => if cs.all Char.isDigit then (digitsVal cs : Int) else 0

/-- An XML attribute (`xml.Attr` restricted to its local name, as the source
matches on `attr.Name.Local`). -/
structure XmlAttr where
  name : String
  value : String
deriving DecidableEq, Repr

/-- A token delivered by the (external, non-strict) `encoding/xml` decoder,
tagged with the input offset at which it was read.  `otherTok` stands for the
token kinds the parser switch ignores (character data, comments, processing
instructions, directives). -/
inductive XmlToken where
  | startElem (name : String) (attrs : List XmlAttr) (offset : Int)
  | endElem (name : String) (offset : Int)
  | otherTok (offset : Int)
deriving DecidableEq, Repr

/-- Go `parseManifestAttrs`. -/
def parseManifestAttrs (m : AndroidManifest) (attrs : List XmlAttr) : AndroidManifest :=
  attrs.foldl
    (fun m attr =>
      if attr.name = "package" then { m with packageName := attr.value }
      else if attr.name = "versionCode" then { m with versionCode := atoi attr.value }
      else if attr.name = "versionName" then { m with versionName := attr.value }
      else if attr.name = "compileSdkVersion" then { m with compileSdkVersion := atoi attr.value }
      else m)
    m

/-- Go `parseUsesSdkAttrs`. -/
def parseUsesSdkAttrs (m : AndroidManifest) (attrs : List XmlAttr) : AndroidManifest :=
  attrs.foldl
    (fun m attr =>
      if attr.name = "minSdkVersion" then { m with minSdkVersion := atoi attr.value }
      else if attr.name = "targetSdkVersion" then { m with targetSdkVersion := atoi attr.value }
      else m)
    m

/-- Go `parseApplicationAttrs`. -/
def parseApplicationAttrs (m : AndroidManifest) (attrs : List XmlAttr) : AndroidManifest :=
  attrs.foldl
    (fun m attr =>
      if attr.name = "usesCleartextTraffic" then
        { m with hasCleartext := true, usesCleartext := equalFold attr.value "true" }
      else m)
    m

/-- Go `parsePermission`. -/
def parsePermission (attrs : List XmlAttr) (line : Nat) : Permission :=
  attrs.foldl
    (fun p attr =>
      if attr.name = "name" then { p with name := attr.value }
      else if attr.name = "maxSdkVersion" then { p with maxSdk := atoi attr.value }
      else if attr.name = "required" then { p with required := equalFold attr.value "true" }
      else p)
    { line := line, required := true }

/-- Go `parseComponentAttrs`: returns `(name, exported)`. -/
def parseComponentAttrs (attrs : List XmlAttr) : String × Option Bool :=
  attrs.foldl
    (fun acc attr =>
      if attr.name = "name" then (attr.value, acc.2)
      else if attr.name = "exported" then (acc.1, some (equalFold attr.value "true"))
      else acc)
    ("", none)

/-- The values appended by the `action`/`category` cases: every attribute
named `name`, in order. -/
def attrNameValues (attrs : List XmlAttr) : List String :=
  attrs.filterMap fun a => if a.name = "name" then some a.value else none

/-- The Go `componentCtx` record local to `Parse`. -/
structure ComponentCtx where
  kind : String := ""
  name : String := ""
  exported : Option Bool := none
  intentFilters : List IntentFilter := []
  line : Nat := 0
deriving DecidableEq, Repr

/-- The loop state of `Parse` that can influence the resulting manifest.
The Go loop also keeps `elementStack`, which it only pushes and pops and
never reads; the stack is tracked separately in `parseStep`. -/
structure ParseCtx where
  m : AndroidManifest := {}
  currentComponent : Option ComponentCtx := none
  currentIntentFilter : Option IntentFilter := none
deriving DecidableEq, Repr

/-- The component-kind start cases of the `Parse` switch. -/
def startComponent (st : ParseCtx) (kind : String) (attrs : List XmlAttr) (line : Nat) : ParseCtx :=
  let p := parseComponentAttrs attrs
  let c : ComponentCtx :=
    { kind := kind, name := p.1, exported := p.2, intentFilters := [], line := line }
  { st with currentComponent := some c }

/-- Appends a finished component to the list for its kind. -/
def appendComponent (m : AndroidManifest) (kind : String) (comp : Component) : AndroidManifest :=
  match kind with
  | "activity" => { m with activities := m.activities ++ [comp] }
  | "service" => { m with services := m.services ++ [comp] }
  | "receiver" => { m with receivers := m.receivers ++ [comp] }
  | "provider" => { m with providers := m.providers ++ [comp] }
  | _ => m

/-- The component-kind end cases of the `Parse` switch: finalize the open
component when its kind matches, otherwise do nothing. -/
def endComponent (st : ParseCtx) (kind : String) : ParseCtx :=
  match st.currentComponent with
  | some c =>
      if c.kind = kind then
        { st with
          m := appendComponent st.m kind
            { name := c.name, exported := c.exported,
              intentFilters := c.intentFilters, line := c.line },
          currentComponent := none }
      else st
  | none => st

/-- The `action`/`category` start cases: append the name-attribute values to
the open intent filter, or ignore the token when none is open. -/
def appendToFilter (st : ParseCtx) (toActions : Bool) (attrs : List XmlAttr) : ParseCtx :=
  match st.currentIntentFilter with
  | some f =>
      let f :=
        if toActions then { f with actions := f.actions ++ attrNameValues attrs }
        else { f with categories := f.categories ++ attrNameValues attrs }
      { st with currentIntentFilter := some f }
  | none => st

/-- The `intent-filter` end case: append the finished filter to the open
component (when both are open) and close the filter. -/
def endIntentFilter (st : ParseCtx) : ParseCtx :=
  let st' :=
    match st.currentIntentFilter, st.currentComponent with
    | some f, some c =>
        let c := { c with intentFilters := c.intentFilters ++ [f] }
        { st with currentComponent := some c }
    | _, _ => st
  { st' with currentIntentFilter := none }

/-- The body of the token loop of Go `Parse`, on the stack-free part of the
state (the `switch` over `xml.StartElement` / `xml.EndElement`, rendered as
the equivalent chain of name tests). -/
def parseCtxStep (lineOffsets : List Int) (st : ParseCtx) (tok : XmlToken) : ParseCtx :=
  match tok with
  | .startElem name attrs off =>
    let line := (offsetToLine lineOffsets off).toNat
    if name = "manifest" then { st with m := parseManifestAttrs st.m attrs }
    else if name = "uses-sdk" then { st with m := parseUsesSdkAttrs st.m attrs }
    else if name = "application" then { st with m := parseApplicationAttrs st.m attrs }
    else if name = "uses-permission" then
      let m := { st.m with permissions := st.m.permissions ++ [parsePermission attrs line] }
      { st with m := m }
    else if name = "activity" ∨ name = "activity-alias" then
      startComponent st "activity" attrs line
    else if name = "service" then startComponent st "service" attrs line
    else if name = "receiver" then startComponent st "receiver" attrs line
    else if name = "provider" then startComponent st "provider" attrs line
    else if name = "intent-filter" then { st with currentIntentFilter := some ({ line := line }) }
    else if name = "action" then appendToFilter st true attrs
    else if name = "category" then appendToFilter st false attrs
    else st
  | .endElem name _ =>
    if name = "intent-filter" then endIntentFilter st
    else if name = "activity" ∨ name = "activity-alias" then endComponent st "activity"
    else if name = "service" then endComponent st "service"
    else if name = "receiver" then endComponent st "receiver"
    else if name = "provider" then endComponent st "provider"
    else st
  | .otherTok _ => st

/-- Full loop state of `Parse`, including the write-only `elementStack`. -/
structure ParseState where
  m : AndroidManifest := {}
  elementStack : List String := []
  currentComponent : Option ComponentCtx := none
  currentIntentFilter : Option IntentFilter := none
deriving DecidableEq, Repr

/-- The push/pop bookkeeping of `elementStack` (a pop of an empty stack is a
no-op, as in the source). -/
def stackStep (stack : List String) (tok : XmlToken) : List String :=
  match tok with
  | .startElem name _ _ => stack ++ [name]
  | .endElem _ _ => stack.dropLast
  | .otherTok _ => stack

/-- One iteration of the token loop of `Parse`. -/
def parseStep (lineOffsets : List Int) (st : ParseState) (tok : XmlToken) : ParseState :=
  let c := parseCtxStep lineOffsets
    { m := st.m, currentComponent := st.currentComponent,
      currentIntentFilter := st.currentIntentFilter } tok
  { m := c.m, elementStack := stackStep st.elementStack tok,
    currentComponent := c.currentComponent,
    currentIntentFilter := c.currentIntentFilter }

/-- Go `Parse`, abstracted over the external `encoding/xml` tokenizer: the
decoder delivers `tokens` and then either end-of-input (`tokErr = none`) or
an unrecoverable token-stream error at some offset.  The loop processes every
delivered token; a tokenizer error makes `Parse` return the wrapped
`MalformedDocument` error, otherwise the accumulated manifest is returned. -/
def parseTokens (data : List Nat) (tokens : List XmlToken)
    (tokErr : Option (Int × String)) : Except String AndroidManifest :=
  let lineOffsets := buildLineOffsets data
  let final := tokens.foldl (parseStep lineOffsets) {}
  match tokErr with
  | some (off, e) => .error ("XML parse error at offset " ++ toString off ++ ": " ++ e)
  | none => .ok final.m

/-- The element names the `Parse` switch reacts to; every other element
(unknown or vendor-specific) falls through the switch. -/
def knownElementNames : List String :=
  ["manifest", "uses-sdk", "application", "uses-permission",
   "activity", "activity-alias", "service", "receiver", "provider",
   "intent-filter", "action", "category"]

/-- A token that is invisible to the parser state: an element the switch does
not know, or a non-element token. -/
def isIgnoredToken (tok : XmlToken) : Bool :=
  match tok with
  | .startElem name _ _ => !(knownElementNames.contains name)
  | .endElem name _ => !(knownElementNames.contains name)
  | .otherTok _ => true


/-! ## Concrete fixtures and auxiliary definitions used by the theorems -/

/-- The findings delivered to the merge loop, in completion order. -/
def mergedFindings (checkers : List Checker) (dir : String) : List Finding :=
  (checkers.map (fun c => (runOutcome c dir).findings)).flatten

/-- A two-element mock checker pair reporting the same key with different
descriptive text (the race noted in the design notes). -/
def cexF1 : Finding := { checkID := "X", title := "first text" }

def cexF2 : Finding := { checkID := "X", title := "second text" }

def cexChecker1 : Checker :=
  { id := "c1", run := fun _ => (some { checkID := "c1", passed := true, findings := [cexF1] }, none) }

def cexChecker2 : Checker :=
  { id := "c2", run := fun _ => (some { checkID := "c2", passed := true, findings := [cexF2] }, none) }

/-- Mock checkers with key-distinct findings for the determinism witness. -/
def detChecker1 : Checker :=
  { id := "d1", run := fun _ =>
      (some { checkID := "d1", passed := true,
              findings := [{ checkID := "A", severity := SeverityWarning }] }, none) }

def detChecker2 : Checker :=
  { id := "d2", run := fun _ =>
      (some { checkID := "d2", passed := true,
              findings := [{ checkID := "B", severity := SeverityCritical }] }, none) }

/-- The three checkers of scenario D: one fails with a document-not-found
error, the two others succeed with one finding each. -/
def scenDFail : Checker :=
  { id := "manifest", run := fun _ =>
      (some { checkID := "manifest", passed := false,
              err := some "AndroidManifest.xml not found" },
       some "AndroidManifest.xml not found") }

def scenDOk1 : Checker :=
  { id := "codescan", run := fun _ =>
      (some { checkID := "codescan", passed := true,
              findings := [{ checkID := "CS001", severity := SeverityWarning }] }, none) }

def scenDOk2 : Checker :=
  { id := "datasafety", run := fun _ =>
      (some { checkID := "datasafety", passed := true,
              findings := [{ checkID := "PDS001", severity := SeverityCritical }] }, none) }

/-- The per-permission contribution of `CheckDangerousPermissions`. -/
def permBlock (fp : String) (p : Permission) : List Finding :=
  match dangerousPermissions p.name with
  | some info => [permFinding fp p info]
  | none => []

/-- A manifest whose only MAIN+LAUNCHER intent filter sits on a service. -/
def launcherOnServiceManifest : AndroidManifest :=
  { services :=
      [{ name := "com.example.Svc",
         intentFilters :=
           [{ actions := ["android.intent.action.MAIN"],
              categories := ["android.intent.category.LAUNCHER"], line := 5 }],
         line := 4 }] }

/-- The stack-free projection of the full loop state. -/
def parseProj (s : ParseState) : ParseCtx :=
  { m := s.m, currentComponent := s.currentComponent,
    currentIntentFilter := s.currentIntentFilter }

theorem dedupGo_mem (seen : List (String × String)) (l : List Finding) (g : Finding) :
    g ∈ deduplicateFindingsGo seen l ↔
      ∃ l₁ l₂, l = l₁ ++ g :: l₂ ∧ dedupKey g ∉ seen ∧ ∀ h ∈ l₁, dedupKey h ≠ dedupKey g := by
  induction l generalizing seen with
  | nil => simp [deduplicateFindingsGo]
  | cons f rest ih =>
    unfold deduplicateFindingsGo
    by_cases hf : dedupKey f ∈ seen
    · simp only [if_pos hf, ih]
      constructor
      · rintro ⟨l₁, l₂, rfl, hg, hall⟩
        refine ⟨f :: l₁, l₂, rfl, hg, ?_⟩
        intro h hh
        rcases List.mem_cons.mp hh with rfl | hh
        · intro hkey; exact hg (hkey ▸ hf)
        · exact hall h hh
      · rintro ⟨l₁, l₂, heq, hg, hall⟩
        cases l₁ with
        | nil =>
          simp at heq
          exact absurd (heq.1 ▸ hf) hg
        | cons a l₁ =>
          simp at heq
          obtain ⟨rfl, heq⟩ := heq
          exact ⟨l₁, l₂, heq, hg, fun h hh => hall h (List.mem_cons_of_mem _ hh)⟩
    · simp only [if_neg hf, List.mem_cons, ih]
      constructor
      · rintro (rfl | ⟨l₁, l₂, rfl, hg, hall⟩)
        · exact ⟨[], rest, rfl, hf, by simp⟩
        · refine ⟨f :: l₁, l₂, rfl, ?_, ?_⟩
          · simp at hg; exact hg.2
          · intro h hh
            rcases List.mem_cons.mp hh with rfl | hh
            · simp at hg; exact fun hk => hg.1 hk.symm
            · exact hall h hh
      · rintro ⟨l₁, l₂, heq, hg, hall⟩
        cases l₁ with
        | nil =>
          simp at heq
          exact Or.inl heq.1.symm
        | cons a l₁ =>
          simp at heq
          obtain ⟨rfl, heq⟩ := heq
          refine Or.inr ⟨l₁, l₂, heq, ?_, fun h hh => hall h (List.mem_cons_of_mem _ hh)⟩
          have hfg : dedupKey f ≠ dedupKey g := hall f (List.mem_cons_self f l₁)
          intro hmem
          rcases hmem with h | h
          · exact hfg h.symm
          · exact hg h
  

theorem dedupGo_not_seen (seen : List (String × String)) (l : List Finding) :
    ∀ g ∈ deduplicateFindingsGo seen l, dedupKey g ∉ seen := by
  induction l generalizing seen with
  | nil => simp [deduplicateFindingsGo]
  | cons f rest ih =>
    unfold deduplicateFindingsGo
    by_cases hf : dedupKey f ∈ seen
    · simpa [hf] using ih seen
    · simp only [if_neg hf]
      intro g hg
      rcases List.mem_cons.mp hg with rfl | hg
      · exact hf
      · have := ih (dedupKey f :: seen) g hg
        exact fun hmem => this (List.mem_cons_of_mem _ hmem)

theorem dedupGo_keys_nodup (seen : List (String × String)) (l : List Finding) :
    ((deduplicateFindingsGo seen l).map dedupKey).Nodup := by
  induction l generalizing seen with
  | nil => simp [deduplicateFindingsGo]
  | cons f rest ih =>
    unfold deduplicateFindingsGo
    by_cases hf : dedupKey f ∈ seen
    · simpa [hf] using ih seen
    · simp only [if_neg hf, List.map_cons, List.nodup_cons]
      refine ⟨?_, ih (dedupKey f :: seen)⟩
      intro hmem
      rcases List.mem_map.mp hmem with ⟨g, hg, hkey⟩
      exact dedupGo_not_seen _ _ g hg (hkey ▸ List.mem_cons_self _ _)

theorem dedupGo_sublist (seen : List (String × String)) (l : List Finding) :
    (deduplicateFindingsGo seen l).Sublist l := by
  induction l generalizing seen with
  | nil => simp [deduplicateFindingsGo]
  | cons f rest ih =>
    unfold deduplicateFindingsGo
    by_cases hf : dedupKey f ∈ seen
    · simp only [if_pos hf]
      exact (ih seen).trans (List.sublist_cons_self f rest)
    · simp only [if_neg hf]
      exact List.Sublist.cons₂ f (ih _)

theorem dedupGo_id_of_nodup (l : List Finding) :
    ∀ seen : List (String × String), (l.map dedupKey).Nodup →
      (∀ g ∈ l, dedupKey g ∉ seen) → deduplicateFindingsGo seen l = l := by
  induction l with
  | nil => intro seen _ _; rfl
  | cons f rest ih =>
    intro seen hnd hout
    unfold deduplicateFindingsGo
    rw [if_neg (hout f (List.mem_cons_self f rest))]
    congr 1
    apply ih
    · exact (List.nodup_cons.mp (by simpa using hnd)).2
    · intro g hg
      intro hmem
      rcases List.mem_cons.mp hmem with heq | hmem
      · have : dedupKey f ∉ rest.map dedupKey := (List.nodup_cons.mp (by simpa using hnd)).1
        exact this (heq ▸ List.mem_map_of_mem dedupKey hg)
      · exact hout g (List.mem_cons_of_mem _ hg) hmem


/-- Claim C5: deduplication keeps a finding iff it is the first occurrence
(in merge order) of its (ruleId, position-as-string) key, two findings count
as equal exactly when both key components match, and deduplication is
idempotent. -/
theorem claim_C5_dedup_first_occurrence_idempotent :
    ∀ l : List Finding,
      (∀ g, g ∈ deduplicateFindings l ↔
        ∃ l₁ l₂, l = l₁ ++ g :: l₂ ∧ ∀ h ∈ l₁, dedupKey h ≠ dedupKey g)
      ∧ ((deduplicateFindings l).map dedupKey).Nodup
      ∧ (deduplicateFindings l).Sublist l
      ∧ (∀ f g : Finding,
          dedupKey f = dedupKey g ↔ f.checkID = g.checkID ∧ f.location.str = g.location.str)
      ∧ deduplicateFindings (deduplicateFindings l) = deduplicateFindings l := by
  intro l
  refine ⟨?_, dedupGo_keys_nodup [] l, dedupGo_sublist [] l, ?_, ?_⟩
  · intro g
    rw [deduplicateFindings, dedupGo_mem]
    constructor
    · rintro ⟨l₁, l₂, rfl, _, hall⟩; exact ⟨l₁, l₂, rfl, hall⟩
    · rintro ⟨l₁, l₂, rfl, hall⟩; exact ⟨l₁, l₂, rfl, List.not_mem_nil _, hall⟩
  · intro f g
    unfold dedupKey
    simp [Prod.ext_iff]
  · exact dedupGo_id_of_nodup _ [] (dedupGo_keys_nodup [] l) (by simp)

/-- Witness for C5 at a concrete list: a duplicated-key finding is dropped
and the output is a fixed point of deduplication. -/
theorem claim_C5_witness :
    deduplicateFindings (deduplicateFindings
        [{ checkID := "A" }, { checkID := "A" }, { checkID := "B" }]) =
      deduplicateFindings [{ checkID := "A" }, { checkID := "A" }, { checkID := "B" }] :=
  (claim_C5_dedup_first_occurrence_idempotent
    [{ checkID := "A" }, { checkID := "A" }, { checkID := "B" }]).2.2.2.2


theorem findingLess_iff (a b : Finding) :
    findingLess a b = true ↔
      b.severity < a.severity ∨
        (a.severity = b.severity ∧
          (a.checkID < b.checkID ∨
            (a.checkID = b.checkID ∧ a.location.str < b.location.str))) := by
  unfold findingLess
  by_cases h1 : a.severity = b.severity
  · by_cases h2 : a.checkID = b.checkID
    · simp [h1, h2, lt_irrefl]
    · simp [h1, h2]
  · simp [h1]

theorem findingLE_iff (a b : Finding) :
    findingLE a b ↔
      b.severity < a.severity ∨
        (a.severity = b.severity ∧
          (a.checkID < b.checkID ∨
            (a.checkID = b.checkID ∧ a.location.str ≤ b.location.str))) := by
  unfold findingLE
  rw [Bool.eq_false_iff, ne_eq, findingLess_iff]
  push_neg
  constructor
  · rintro ⟨h1, h2⟩
    rcases lt_or_eq_of_le h1 with hs | hs
    · exact Or.inl hs
    · obtain ⟨hc, hcl⟩ := h2 hs
      rcases lt_or_eq_of_le hc with hlt | hceq
      · exact Or.inr ⟨hs.symm, Or.inl hlt⟩
      · exact Or.inr ⟨hs.symm, Or.inr ⟨hceq, hcl hceq.symm⟩⟩
  · rintro (h | ⟨hs, hrest⟩)
    · exact ⟨le_of_lt h, fun he => absurd h (by rw [he]; exact lt_irrefl _)⟩
    · refine ⟨le_of_eq hs.symm, fun _ => ?_⟩
      rcases hrest with hc | ⟨hce, hl⟩
      · exact ⟨le_of_lt hc, fun hce => absurd hc (by rw [hce]; exact lt_irrefl _)⟩
      · exact ⟨le_of_eq hce, fun _ => hl⟩

instance : IsTotal Finding findingLE := by
  constructor
  intro a b
  rw [findingLE_iff, findingLE_iff]
  rcases lt_trichotomy a.severity b.severity with hs | hs | hs
  · exact Or.inr (Or.inl hs)
  · rcases lt_trichotomy a.checkID b.checkID with hc | hc | hc
    · exact Or.inl (Or.inr ⟨hs, Or.inl hc⟩)
    · rcases le_total a.location.str b.location.str with hl | hl
      · exact Or.inl (Or.inr ⟨hs, Or.inr ⟨hc, hl⟩⟩)
      · exact Or.inr (Or.inr ⟨hs.symm, Or.inr ⟨hc.symm, hl⟩⟩)
    · exact Or.inr (Or.inr ⟨hs.symm, Or.inl hc⟩)
  · exact Or.inl (Or.inl hs)

instance : IsTrans Finding findingLE := by
  constructor
  intro a b c hab hbc
  rw [findingLE_iff] at hab hbc ⊢
  rcases hab with h1 | ⟨hs1, h1⟩
  · rcases hbc with h2 | ⟨hs2, _⟩
    · exact Or.inl (lt_trans h2 h1)
    · exact Or.inl (hs2 ▸ h1)
  · rcases hbc with h2 | ⟨hs2, h2⟩
    · exact Or.inl (hs1 ▸ h2)
    · refine Or.inr ⟨hs1.trans hs2, ?_⟩
      rcases h1 with hc1 | ⟨hc1, hl1⟩
      · rcases h2 with hc2 | ⟨hc2, _⟩
        · exact Or.inl (lt_trans hc1 hc2)
        · exact Or.inl (hc2 ▸ hc1)
      · rcases h2 with hc2 | ⟨hc2, hl2⟩
        · exact Or.inl (hc1 ▸ hc2)
        · exact Or.inr ⟨hc1.trans hc2, le_trans hl1 hl2⟩

/-- Two findings comparable both ways share the deduplication key. -/
theorem findingLE_antisymm_key (a b : Finding) (hab : findingLE a b) (hba : findingLE b a) :
    dedupKey a = dedupKey b := by
  rw [findingLE_iff] at hab hba
  rcases hab with h1 | ⟨hs1, h1⟩
  · rcases hba with h2 | ⟨hs2, _⟩
    · exact absurd (lt_trans h1 h2) (lt_irrefl _)
    · exact absurd (hs2 ▸ h1) (lt_irrefl _)
  · rcases hba with h2 | ⟨_, h2⟩
    · exact absurd (hs1 ▸ h2) (lt_irrefl _)
    · rcases h1 with hc1 | ⟨hc1, hl1⟩
      · rcases h2 with hc2 | ⟨hc2, _⟩
        · exact absurd (lt_trans hc1 hc2) (lt_irrefl _)
        · exact absurd (hc2 ▸ hc1) (lt_irrefl _)
      · rcases h2 with hc2 | ⟨_, hl2⟩
        · exact absurd (hc1 ▸ hc2) (lt_irrefl _)
        · unfold dedupKey
          rw [hc1, le_antisymm hl1 hl2]


/-- Two sorted permutations made of key-distinct findings coincide. -/
theorem sorted_perm_eq :
    ∀ (l₁ l₂ : List Finding), l₁.Perm l₂ → l₁.Sorted findingLE → l₂.Sorted findingLE →
      (∀ a ∈ l₁, ∀ b ∈ l₁, dedupKey a = dedupKey b → a = b) → l₁ = l₂ := by
  intro l₁
  induction l₁ with
  | nil =>
    intro l₂ p _ _ _
    exact p.nil_eq
  | cons a t ih =>
    intro l₂ p s₁ s₂ hk
    cases l₂ with
    | nil => exact absurd p.symm (by simp)
    | cons b t₂ =>
      have h1 : a ∈ b :: t₂ := p.subset (List.mem_cons_self _ _)
      have h2 : b ∈ a :: t := p.symm.subset (List.mem_cons_self _ _)
      have hab : a = b := by
        rcases List.mem_cons.mp h1 with h | h
        · exact h
        · rcases List.mem_cons.mp h2 with h2' | h2'
          · exact h2'.symm
          · have hba : findingLE b a := List.rel_of_sorted_cons s₂ a h
            have hab' : findingLE a b := List.rel_of_sorted_cons s₁ b h2'
            exact hk a (List.mem_cons_self _ _) b h2 (findingLE_antisymm_key a b hab' hba)
      subst hab
      have p' : t.Perm t₂ := p.cons_inv
      have ht : t = t₂ := by
        refine ih t₂ p' s₁.of_cons s₂.of_cons ?_
        intro x hx y hy
        exact hk x (List.mem_cons_of_mem _ hx) y (List.mem_cons_of_mem _ hy)
      rw [ht]

theorem dedupGo_mem_of_keyUnique :
    ∀ (l : List Finding) (seen : List (String × String)) (g : Finding), g ∈ l →
      dedupKey g ∉ seen → (∀ a ∈ l, ∀ b ∈ l, dedupKey a = dedupKey b → a = b) →
      g ∈ deduplicateFindingsGo seen l := by
  intro l
  induction l with
  | nil => simp
  | cons f rest ih =>
    intro seen g hg hgs hk
    unfold deduplicateFindingsGo
    by_cases hf : dedupKey f ∈ seen
    · rw [if_pos hf]
      rcases List.mem_cons.mp hg with rfl | hg'
      · exact absurd hf hgs
      · exact ih seen g hg' hgs
          (fun a ha b hb => hk a (List.mem_cons_of_mem _ ha) b (List.mem_cons_of_mem _ hb))
    · rw [if_neg hf]
      by_cases hkey : dedupKey g = dedupKey f
      · have hgf : g = f := hk g hg f (List.mem_cons_self _ _) hkey
        rw [hgf]
        exact List.mem_cons_self _ _
      · rcases List.mem_cons.mp hg with rfl | hg'
        · exact List.mem_cons_self _ _
        · refine List.mem_cons_of_mem _ (ih _ g hg' ?_
            (fun a ha b hb => hk a (List.mem_cons_of_mem _ ha) b (List.mem_cons_of_mem _ hb)))
          intro hmem
          rcases List.mem_cons.mp hmem with heq | hmem2
          · exact hkey heq
          · exact hgs hmem2

/-- When all equal-key findings of `l` are fully equal, deduplication only
removes copies: membership is preserved. -/
theorem dedup_mem_of_keyUnique (l : List Finding)
    (hk : ∀ a ∈ l, ∀ b ∈ l, dedupKey a = dedupKey b → a = b) :
    ∀ g, g ∈ deduplicateFindings l ↔ g ∈ l := by
  intro g
  constructor
  · exact fun h => (dedupGo_sublist [] l).mem h
  · intro hg
    exact dedupGo_mem_of_keyUnique l [] g hg (List.not_mem_nil _) hk




theorem foldl_mergeStep_findings (dir : String) :
    ∀ (cs : List Checker) (acc : ScanResult),
      (cs.foldl (mergeStep dir) acc).findings = acc.findings ++ mergedFindings cs dir := by
  intro cs
  induction cs with
  | nil => intro acc; simp [mergedFindings]
  | cons c rest ih =>
    intro acc
    simp only [List.foldl_cons, ih, mergedFindings, List.map_cons, List.flatten_cons]
    simp [mergeStep, List.append_assoc]

theorem runnerRun_findings_eq (cs : List Checker) (dir : String) :
    (runnerRun cs dir).findings =
      sortFindings (deduplicateFindings (mergedFindings cs dir)) := by
  unfold runnerRun
  simp [foldl_mergeStep_findings]



/-- Counterexample to claim C6: two completion orders of the same checkers
(hence the same input multiset of findings) yield different final findings
lists, because first-occurrence deduplication picks a different
representative of a duplicated key. -/
theorem claim_C6_counterexample :
    [cexChecker1, cexChecker2].Perm [cexChecker2, cexChecker1]
    ∧ (mergedFindings [cexChecker1, cexChecker2] "p").Perm
        (mergedFindings [cexChecker2, cexChecker1] "p")
    ∧ (runnerRun [cexChecker1, cexChecker2] "p").findings ≠
        (runnerRun [cexChecker2, cexChecker1] "p").findings := by
  refine ⟨List.Perm.swap _ _ _, ?_, ?_⟩
  · decide
  · decide


/-- Claim C6 (amended): the final findings list is sorted by severity
descending, then ruleId ascending, then position-string ascending, and is a
permutation of the deduplicated merge; the comparator totally orders
key-distinct findings, so whenever all equal-key findings of the merge are
fully equal the output is one deterministic list for the input multiset,
independent of checker completion order; severities [Warning, Critical,
Error] come out ordered [Critical, Error, Warning]. -/
theorem claim_C6_sort_deterministic :
    (∀ (cs : List Checker) (dir : String),
      ((runnerRun cs dir).findings).Sorted findingLE
      ∧ ((runnerRun cs dir).findings).Perm (deduplicateFindings (mergedFindings cs dir)))
    ∧ (∀ (cs₁ cs₂ : List Checker) (dir : String), cs₁.Perm cs₂ →
        (∀ a ∈ mergedFindings cs₁ dir, ∀ b ∈ mergedFindings cs₁ dir,
          dedupKey a = dedupKey b → a = b) →
        (runnerRun cs₁ dir).findings = (runnerRun cs₂ dir).findings)
    ∧ (sortFindings
         [{ severity := SeverityWarning }, { severity := SeverityCritical },
          { severity := SeverityError }]).map Finding.severity =
        [SeverityCritical, SeverityError, SeverityWarning] := by
  refine ⟨?_, ?_, by decide⟩
  · intro cs dir
    rw [runnerRun_findings_eq]
    exact ⟨List.sorted_insertionSort findingLE _, List.perm_insertionSort findingLE _⟩
  · intro cs₁ cs₂ dir hperm hk
    have hm : (mergedFindings cs₁ dir).Perm (mergedFindings cs₂ dir) :=
      List.Perm.flatten (hperm.map _)
    have hk₂ : ∀ a ∈ mergedFindings cs₂ dir, ∀ b ∈ mergedFindings cs₂ dir,
        dedupKey a = dedupKey b → a = b := by
      intro a ha b hb
      exact hk a (hm.mem_iff.mpr ha) b (hm.mem_iff.mpr hb)
    have hnd₁ : (deduplicateFindings (mergedFindings cs₁ dir)).Nodup :=
      List.Nodup.of_map dedupKey (dedupGo_keys_nodup [] _)
    have hnd₂ : (deduplicateFindings (mergedFindings cs₂ dir)).Nodup :=
      List.Nodup.of_map dedupKey (dedupGo_keys_nodup [] _)
    have hdperm : (deduplicateFindings (mergedFindings cs₁ dir)).Perm
        (deduplicateFindings (mergedFindings cs₂ dir)) := by
      rw [List.perm_ext_iff_of_nodup hnd₁ hnd₂]
      intro g
      rw [dedup_mem_of_keyUnique _ hk, dedup_mem_of_keyUnique _ hk₂]
      exact hm.mem_iff
    rw [runnerRun_findings_eq, runnerRun_findings_eq]
    apply sorted_perm_eq
    · exact (List.perm_insertionSort findingLE _).trans
        (hdperm.trans (List.perm_insertionSort findingLE _).symm)
    · exact List.sorted_insertionSort findingLE _
    · exact List.sorted_insertionSort findingLE _
    · intro a ha b hb
      have ha' : a ∈ mergedFindings cs₁ dir :=
        (dedupGo_sublist [] _).mem ((List.perm_insertionSort findingLE _).mem_iff.mp ha)
      have hb' : b ∈ mergedFindings cs₁ dir :=
        (dedupGo_sublist [] _).mem ((List.perm_insertionSort findingLE _).mem_iff.mp hb)
      exact hk a ha' b hb'



/-- Witness for C6: with key-distinct findings, the two completion orders
produce the same final list. -/
theorem claim_C6_witness :
    (runnerRun [detChecker1, detChecker2] "p").findings =
      (runnerRun [detChecker2, detChecker1] "p").findings :=
  claim_C6_sort_deterministic.2.1 [detChecker1, detChecker2] [detChecker2, detChecker1] "p"
    (List.Perm.swap _ _ _) (by decide)


theorem foldl_mergeStep_meta (dir : String) :
    ∀ (cs : List Checker) (s : ScanResult),
      (cs.foldl (mergeStep dir) s).projectPath = s.projectPath
      ∧ (cs.foldl (mergeStep dir) s).scannerIDs = s.scannerIDs := by
  intro cs
  induction cs with
  | nil => intro s; exact ⟨rfl, rfl⟩
  | cons c rest ih =>
    intro s
    simpa [mergeStep] using ih (mergeStep dir s c)

theorem foldl_mergeStep_congr (dir : String) :
    ∀ (cs : List Checker) (s₁ s₂ : ScanResult),
      s₁.findings = s₂.findings → s₁.byScanner = s₂.byScanner →
      s₁.totalPassed = s₂.totalPassed → s₁.totalFailed = s₂.totalFailed →
      (cs.foldl (mergeStep dir) s₁).findings = (cs.foldl (mergeStep dir) s₂).findings
      ∧ (cs.foldl (mergeStep dir) s₁).byScanner = (cs.foldl (mergeStep dir) s₂).byScanner
      ∧ (cs.foldl (mergeStep dir) s₁).totalPassed = (cs.foldl (mergeStep dir) s₂).totalPassed
      ∧ (cs.foldl (mergeStep dir) s₁).totalFailed = (cs.foldl (mergeStep dir) s₂).totalFailed := by
  intro cs
  induction cs with
  | nil => intro s₁ s₂ h1 h2 h3 h4; exact ⟨h1, h2, h3, h4⟩
  | cons c rest ih =>
    intro s₁ s₂ h1 h2 h3 h4
    exact ih (mergeStep dir s₁ c) (mergeStep dir s₂ c)
      (by simp [mergeStep, h1]) (by simp [mergeStep, h2]) (by simp [mergeStep, h3])
      (by simp [mergeStep, h4])

theorem foldl_mergeStep_failure_rel (dir : String) (cid : String) (cr : CheckResult) :
    ∀ (post : List Checker) (s₁ s₂ : ScanResult),
      s₁.findings = s₂.findings →
      s₁.totalPassed = s₂.totalPassed →
      s₁.totalFailed = s₂.totalFailed + 1 →
      (∀ i, i ≠ cid → s₁.byScanner i = s₂.byScanner i) →
      s₁.byScanner cid = some cr →
      cid ∉ post.map Checker.id →
      (post.foldl (mergeStep dir) s₁).findings = (post.foldl (mergeStep dir) s₂).findings
      ∧ (post.foldl (mergeStep dir) s₁).totalPassed = (post.foldl (mergeStep dir) s₂).totalPassed
      ∧ (post.foldl (mergeStep dir) s₁).totalFailed
          = (post.foldl (mergeStep dir) s₂).totalFailed + 1
      ∧ (∀ i, i ≠ cid →
          (post.foldl (mergeStep dir) s₁).byScanner i = (post.foldl (mergeStep dir) s₂).byScanner i)
      ∧ (post.foldl (mergeStep dir) s₁).byScanner cid = some cr := by
  intro post
  induction post with
  | nil =>
    intro s₁ s₂ h1 h2 h3 h4 h5 _
    exact ⟨h1, h2, h3, h4, h5⟩
  | cons c rest ih =>
    intro s₁ s₂ h1 h2 h3 h4 h5 hid
    have hcid : c.id ≠ cid := by
      intro h; exact hid (by simp [h])
    have hid' : cid ∉ rest.map Checker.id := by
      intro h; exact hid (by simp [h])
    refine ih (mergeStep dir s₁ c) (mergeStep dir s₂ c) ?_ ?_ ?_ ?_ ?_ hid'
    · simp [mergeStep, h1]
    · simp [mergeStep, h2]
    · simp [mergeStep, h3, Nat.add_right_comm]
    · intro i hi
      simp only [mergeStep]
      by_cases hic : i = c.id
      · simp [hic]
      · simp [hic, h4 i hi]
    · simp only [mergeStep]
      rw [if_neg (fun h => hcid h.symm)]
      exact h5



/-- Claim C7: a checker whose execute call fails (returning an error, with no
findings and a non-passed result, as every checker of the repository does)
contributes zero findings, its outcome entry records the error, sibling
outcomes, findings and totals are unaffected, the orchestrator still returns
a complete result; and in scenario D (one failing, two succeeding checkers)
totalFailed = 1, totalPassed = 2 and all findings come from the two
successful checkers. -/
theorem claim_C7_failure_isolation :
    (∀ (pre post : List Checker) (c : Checker) (dir e : String),
      (c.run dir).2 = some e →
      (runOutcome c dir).findings = [] →
      (runOutcome c dir).passed = false →
      c.id ∉ (pre ++ post).map Checker.id →
      (runOutcome c dir).err = some e
      ∧ (runnerRun (pre ++ c :: post) dir).byScanner c.id = some (runOutcome c dir)
      ∧ (runnerRun (pre ++ c :: post) dir).findings = (runnerRun (pre ++ post) dir).findings
      ∧ (∀ i, i ≠ c.id →
          (runnerRun (pre ++ c :: post) dir).byScanner i
            = (runnerRun (pre ++ post) dir).byScanner i)
      ∧ (runnerRun (pre ++ c :: post) dir).totalPassed
          = (runnerRun (pre ++ post) dir).totalPassed
      ∧ (runnerRun (pre ++ c :: post) dir).totalFailed
          = (runnerRun (pre ++ post) dir).totalFailed + 1
      ∧ (runnerRun (pre ++ c :: post) dir).projectPath = dir
      ∧ (runnerRun (pre ++ c :: post) dir).scannerIDs = (pre ++ c :: post).map Checker.id)
    ∧ ((runnerRun [scenDFail, scenDOk1, scenDOk2] "proj").totalFailed = 1
       ∧ (runnerRun [scenDFail, scenDOk1, scenDOk2] "proj").totalPassed = 2
       ∧ (runnerRun [scenDFail, scenDOk1, scenDOk2] "proj").findings =
           [{ checkID := "PDS001", severity := SeverityCritical },
            { checkID := "CS001", severity := SeverityWarning }]
       ∧ (runnerRun [scenDFail, scenDOk1, scenDOk2] "proj").byScanner "manifest" =
           some { checkID := "manifest", passed := false,
                  err := some "AndroidManifest.xml not found" }) := by
  constructor
  · intro pre post c dir e hrun hfind hpass hid
    have herr : (runOutcome c dir).err = some e := by
      unfold runOutcome
      rw [hrun]
    have hpre : c.id ∉ pre.map Checker.id := by
      intro h; exact hid (by simp [h])
    have hpost : c.id ∉ post.map Checker.id := by
      intro h; exact hid (by simp [h])
    unfold runnerRun
    simp only [List.foldl_append, List.foldl_cons]
    set init₁ : ScanResult :=
      { scannerIDs := (pre ++ c :: post).map Checker.id, projectPath := dir } with hinit₁
    set init₂ : ScanResult :=
      { scannerIDs := (pre ++ post).map Checker.id, projectPath := dir } with hinit₂
    have hcongr := foldl_mergeStep_congr dir pre init₁ init₂ rfl rfl rfl rfl
    set s₁ := pre.foldl (mergeStep dir) init₁ with hs₁
    set s₂ := pre.foldl (mergeStep dir) init₂ with hs₂
    have hrel := foldl_mergeStep_failure_rel dir c.id (runOutcome c dir) post
      (mergeStep dir s₁ c) s₂
      (by simp [mergeStep, hfind, hcongr.1])
      (by simp [mergeStep, hpass, hcongr.2.2.1])
      (by simp [mergeStep, hpass, hcongr.2.2.2])
      (by
        intro i hi
        simp only [mergeStep]
        rw [if_neg hi, hcongr.2.1])
      (by simp [mergeStep])
      hpost
    refine ⟨herr, hrel.2.2.2.2, by rw [hrel.1], hrel.2.2.2.1, hrel.2.1, hrel.2.2.1, ?_, ?_⟩
    · rw [(foldl_mergeStep_meta dir post (mergeStep dir s₁ c)).1]
      show (mergeStep dir s₁ c).projectPath = dir
      simp only [mergeStep]
      rw [hs₁, (foldl_mergeStep_meta dir pre init₁).1]
    · rw [(foldl_mergeStep_meta dir post (mergeStep dir s₁ c)).2]
      show (mergeStep dir s₁ c).scannerIDs = _
      simp only [mergeStep]
      rw [hs₁, (foldl_mergeStep_meta dir pre init₁).2]
  · refine ⟨by decide, by decide, by decide, by decide⟩

/-- Witness for C7 at the concrete scenario-D checkers. -/
theorem claim_C7_witness :
    (runnerRun ([] ++ scenDFail :: [scenDOk1, scenDOk2]) "proj").findings
      = (runnerRun ([] ++ [scenDOk1, scenDOk2]) "proj").findings :=
  (claim_C7_failure_isolation.1 [] [scenDOk1, scenDOk2] scenDFail "proj"
    "AndroidManifest.xml not found" rfl rfl rfl (by decide)).2.2.1


/-- Counterexample to claim C2: with the cleartext attribute unset and the
target version also unset (0, which is below 28) the validator emits no
finding, although the claim requires a Warning for every target version
below the threshold. -/
theorem claim_C2_counterexample :
    (({} : AndroidManifest)).hasCleartext = false
    ∧ (({} : AndroidManifest)).targetSdkVersion < 28
    ∧ checkCleartextTraffic {} = [] := by
  refine ⟨rfl, by decide, by decide⟩

/-- Claim C2 (amended): explicitly true yields exactly one Error finding,
explicitly false yields none, and when the attribute is unset a Warning is
emitted iff the target version is explicitly set (positive) and below 28. -/
theorem claim_C2_cleartext_three_way :
    ∀ m : AndroidManifest,
      (m.hasCleartext = true → m.usesCleartext = true →
        ∃ f, checkCleartextTraffic m = [f] ∧ f.severity = SeverityError
          ∧ f.checkID = RuleCleartextTraffic)
      ∧ (m.hasCleartext = true → m.usesCleartext = false → checkCleartextTraffic m = [])
      ∧ (m.hasCleartext = false →
          ((∃ f, checkCleartextTraffic m = [f] ∧ f.severity = SeverityWarning
              ∧ f.checkID = RuleCleartextTraffic)
            ↔ (m.targetSdkVersion > 0 ∧ m.targetSdkVersion < 28)))
      ∧ (m.hasCleartext = false → ¬(m.targetSdkVersion > 0 ∧ m.targetSdkVersion < 28) →
          checkCleartextTraffic m = []) := by
  intro m
  refine ⟨?_, ?_, ?_, ?_⟩
  · intro h1 h2
    unfold checkCleartextTraffic
    simp only [h1, h2, Bool.not_true, Bool.false_eq_true, if_false, if_true]
    exact ⟨_, rfl, rfl, rfl⟩
  · intro h1 h2
    unfold checkCleartextTraffic
    simp [h1, h2]
  · intro h1
    unfold checkCleartextTraffic
    simp only [h1, Bool.not_false, if_true]
    by_cases ht : m.targetSdkVersion > 0 ∧ m.targetSdkVersion < 28
    · rw [if_pos ht]
      exact ⟨fun _ => ht, fun _ => ⟨_, rfl, rfl, rfl⟩⟩
    · rw [if_neg ht]
      constructor
      · rintro ⟨f, hf, _⟩
        exact absurd hf (by simp)
      · intro h
        exact absurd h ht
  · intro h1 hn
    unfold checkCleartextTraffic
    simp only [h1, Bool.not_false, if_true]
    rw [if_neg hn]

/-- Witness for C2 at concrete manifests: explicitly enabled cleartext gives
the Error finding, and an up-to-date target with the attribute unset gives
none. -/
theorem claim_C2_witness :
    (∃ f, checkCleartextTraffic { hasCleartext := true, usesCleartext := true } = [f]
      ∧ f.severity = SeverityError ∧ f.checkID = RuleCleartextTraffic)
    ∧ checkCleartextTraffic { hasCleartext := false, targetSdkVersion := 35 } = [] :=
  ⟨(claim_C2_cleartext_three_way _).1 rfl rfl,
   (claim_C2_cleartext_three_way _).2.2.2 rfl (by decide)⟩

theorem foldl_append_eq_flatMap {α β : Type} (g : α → List β) :
    ∀ (l : List α) (init : List β),
      l.foldl (fun acc x => acc ++ g x) init = init ++ l.flatMap g := by
  intro l
  induction l with
  | nil => intro init; simp
  | cons x rest ih => intro init; simp [ih, List.append_assoc]

/-- Claim C3: a component with no intent filters yields no finding; with at
least one filter, an Unspecified tri-state yields exactly one Error, an
explicit Exported yields exactly one Info, an explicit NotExported yields
nothing; and the validator output is the concatenation of the per-component
results over the four kinds. -/
theorem claim_C3_exported_components :
    (∀ (fp name kind : String) (exported : Option Bool) (filters : List IntentFilter) (line : Nat),
      (filters = [] → checkComponent fp name kind exported filters line = [])
      ∧ (filters ≠ [] →
          (exported = none →
            ∃ f, checkComponent fp name kind exported filters line = [f]
              ∧ f.severity = SeverityError ∧ f.checkID = RuleExportedComponent
              ∧ f.location = { file := fp, line := line })
          ∧ (exported = some true →
            ∃ f, checkComponent fp name kind exported filters line = [f]
              ∧ f.severity = SeverityInfo ∧ f.checkID = RuleComponentSecurity
              ∧ f.location = { file := fp, line := line })
          ∧ (exported = some false → checkComponent fp name kind exported filters line = [])))
    ∧ (∀ m : AndroidManifest,
        checkExportedComponents m =
          m.activities.flatMap
            (fun a => checkComponent m.filePath a.name "Activity" a.exported a.intentFilters a.line)
          ++ m.services.flatMap
            (fun s => checkComponent m.filePath s.name "Service" s.exported s.intentFilters s.line)
          ++ m.receivers.flatMap
            (fun r => checkComponent m.filePath r.name "Receiver" r.exported r.intentFilters r.line)
          ++ m.providers.flatMap
            (fun p => checkComponent m.filePath p.name "Provider" p.exported p.intentFilters p.line)) := by
  constructor
  · intro fp name kind exported filters line
    constructor
    · intro h
      simp [checkComponent, h]
    · intro h
      have hlen : ¬ filters.length = 0 := by
        simpa [List.length_eq_zero] using h
      refine ⟨?_, ?_, ?_⟩
      · intro he
        subst he
        unfold checkComponent
        rw [if_neg hlen]
        exact ⟨_, rfl, rfl, rfl, rfl⟩
      · intro he
        subst he
        unfold checkComponent
        rw [if_neg hlen]
        exact ⟨_, rfl, rfl, rfl, rfl⟩
      · intro he
        subst he
        unfold checkComponent
        rw [if_neg hlen]
  · intro m
    unfold checkExportedComponents
    rw [foldl_append_eq_flatMap, foldl_append_eq_flatMap, foldl_append_eq_flatMap,
      foldl_append_eq_flatMap]
    simp [List.append_assoc]

/-- Witness for C3 at a concrete component: one filter and an Unspecified
tri-state produce exactly one Error finding. -/
theorem claim_C3_witness :
    ∃ f, checkComponent "AndroidManifest.xml" "com.example.Main" "Activity" none
        [{ actions := [], categories := [], line := 4 }] 3 = [f]
      ∧ f.severity = SeverityError ∧ f.checkID = RuleExportedComponent
      ∧ f.location = { file := "AndroidManifest.xml", line := 3 } :=
  ((claim_C3_exported_components.1 "AndroidManifest.xml" "com.example.Main" "Activity" none
      [{ actions := [], categories := [], line := 4 }] 3).2 (by decide)).1 rfl




theorem checkDangerousPermissions_foldl (fp : String) :
    ∀ (l : List Permission) (acc : List Finding),
      l.foldl
        (fun acc p =>
          match dangerousPermissions p.name with
          | none => acc
          | some info => acc ++ [permFinding fp p info]) acc
        = acc ++ l.flatMap (permBlock fp) := by
  intro l
  induction l with
  | nil => intro acc; simp
  | cons p rest ih =>
    intro acc
    rcases h : dangerousPermissions p.name with _ | info
    · simp only [List.foldl_cons, h, ih, List.flatMap_cons, permBlock, h]
      simp [permBlock, h]
    · simp only [List.foldl_cons, h, ih]
      simp [permBlock, h, List.append_assoc]

/-- Claim C4: the dangerous-capability validator emits exactly one finding
per declared capability whose name is in the table, at the declaration
position, with Critical severity iff the name is in the restricted override
set (and Warning otherwise); capabilities outside the table contribute no
finding. -/
theorem claim_C4_dangerous_permissions :
    (∀ m : AndroidManifest,
      checkDangerousPermissions m = m.permissions.flatMap (permBlock m.filePath))
    ∧ (∀ (fp : String) (p : Permission),
        (dangerousPermissions p.name = none → permBlock fp p = [])
        ∧ (∀ info, dangerousPermissions p.name = some info →
            permBlock fp p = [permFinding fp p info]))
    ∧ (∀ (fp : String) (p : Permission) (info : PermInfo),
        (permFinding fp p info).location = { file := fp, line := p.line }
        ∧ ((permFinding fp p info).severity = SeverityCritical ↔ p.name ∈ restrictedPermissions)
        ∧ (p.name ∉ restrictedPermissions → (permFinding fp p info).severity = SeverityWarning))
    ∧ (∀ m : AndroidManifest,
        (checkDangerousPermissions m).length
          = m.permissions.countP (fun p => (dangerousPermissions p.name).isSome)) := by
  refine ⟨?_, ?_, ?_, ?_⟩
  · intro m
    unfold checkDangerousPermissions
    rw [checkDangerousPermissions_foldl]
    simp
  · intro fp p
    constructor
    · intro h; simp [permBlock, h]
    · intro info h; simp [permBlock, h]
  · intro fp p info
    refine ⟨rfl, ?_, ?_⟩
    · by_cases hmem : p.name ∈ restrictedPermissions
      · simp [permFinding, severityForPermission, hmem]
      · simp only [permFinding, severityForPermission, if_neg hmem]
        constructor
        · intro h; exact absurd h (by decide)
        · intro h; exact absurd h hmem
    · intro hmem
      simp [permFinding, severityForPermission, hmem]
  · intro m
    unfold checkDangerousPermissions
    rw [checkDangerousPermissions_foldl]
    simp only [List.nil_append]
    induction m.permissions with
    | nil => rfl
    | cons p rest ih =>
      rcases h : dangerousPermissions p.name with _ | info
      · simp [permBlock, h, List.countP_cons, ih]
      · simp [permBlock, h, List.countP_cons, ih]

/-- Witness for C4: a declared SEND_SMS permission yields a Critical finding
at its declaration line, via the general theorem. -/
theorem claim_C4_witness :
    permBlock "AndroidManifest.xml"
        { name := "android.permission.SEND_SMS", line := 6 }
      = [permFinding "AndroidManifest.xml"
          { name := "android.permission.SEND_SMS", line := 6 }
          ⟨RuleDangerousPerm, "SMS",
           "SMS send access is restricted; requires default handler or Play Store exception"⟩]
    ∧ (permFinding "AndroidManifest.xml"
        { name := "android.permission.SEND_SMS", line := 6 }
        ⟨RuleDangerousPerm, "SMS",
         "SMS send access is restricted; requires default handler or Play Store exception"⟩).severity
      = SeverityCritical :=
  ⟨(claim_C4_dangerous_permissions.2.1 "AndroidManifest.xml"
      { name := "android.permission.SEND_SMS", line := 6 }).2 _ rfl,
   (claim_C4_dangerous_permissions.2.2.1 "AndroidManifest.xml"
      { name := "android.permission.SEND_SMS", line := 6 }
      ⟨RuleDangerousPerm, "SMS",
       "SMS send access is restricted; requires default handler or Play Store exception"⟩).2.1.mpr
     (by decide)⟩




theorem hasLauncherActivity_iff (m : AndroidManifest) :
    hasLauncherActivity m = true ↔
      ∃ a ∈ m.activities, ∃ f ∈ a.intentFilters,
        "android.intent.action.MAIN" ∈ f.actions
        ∧ "android.intent.category.LAUNCHER" ∈ f.categories := by
  unfold hasLauncherActivity isLauncherActivity
  simp [List.any_eq_true]

/-- Counterexample to claim C9: a component (a service) carries a single
intent filter with both the MAIN action and the LAUNCHER category, yet the
validator still emits its Warning, because only activities are examined. -/
theorem claim_C9_counterexample :
    (∃ s ∈ launcherOnServiceManifest.services, ∃ f ∈ s.intentFilters,
      "android.intent.action.MAIN" ∈ f.actions
      ∧ "android.intent.category.LAUNCHER" ∈ f.categories)
    ∧ (checkLauncherActivity launcherOnServiceManifest).length = 1
    ∧ ∀ f ∈ checkLauncherActivity launcherOnServiceManifest,
        f.severity = SeverityWarning := by
  refine ⟨by decide, by decide, by decide⟩

/-- Claim C9 (amended): the entry-point validator emits exactly one Warning
finding iff no activity has a single intent filter whose action set contains
the MAIN action and whose category set contains the LAUNCHER category (both
on the same filter), and emits nothing otherwise. -/
theorem claim_C9_launcher_warning :
    ∀ m : AndroidManifest,
      ((∃ w, checkLauncherActivity m = [w] ∧ w.severity = SeverityWarning
          ∧ w.checkID = RuleLauncherActivity)
        ↔ ¬ ∃ a ∈ m.activities, ∃ f ∈ a.intentFilters,
            "android.intent.action.MAIN" ∈ f.actions
            ∧ "android.intent.category.LAUNCHER" ∈ f.categories)
      ∧ (checkLauncherActivity m = [] ↔
          ∃ a ∈ m.activities, ∃ f ∈ a.intentFilters,
            "android.intent.action.MAIN" ∈ f.actions
            ∧ "android.intent.category.LAUNCHER" ∈ f.categories) := by
  intro m
  by_cases hl : hasLauncherActivity m = true
  · have hex := (hasLauncherActivity_iff m).mp hl
    unfold checkLauncherActivity
    rw [if_pos hl]
    constructor
    · constructor
      · rintro ⟨w, hw, _⟩
        exact absurd hw (by simp)
      · intro h
        exact absurd hex h
    · exact ⟨fun _ => hex, fun _ => rfl⟩
  · have hex := (not_iff_not.mpr (hasLauncherActivity_iff m)).mp hl
    unfold checkLauncherActivity
    rw [if_neg hl]
    constructor
    · exact ⟨fun _ => hex, fun _ => ⟨_, rfl, rfl, rfl⟩⟩
    · constructor
      · intro h
        exact absurd h (by simp)
      · intro h
        exact absurd h hex

/-- Witness for C9: a manifest with no activities gets exactly one Warning. -/
theorem claim_C9_witness :
    ∃ w, checkLauncherActivity {} = [w] ∧ w.severity = SeverityWarning
      ∧ w.checkID = RuleLauncherActivity :=
  (claim_C9_launcher_warning {}).1.mpr (by decide)


theorem parseComponentAttrs_foldl_none :
    ∀ (attrs : List XmlAttr) (acc : String × Option Bool),
      (attrs.foldl
        (fun acc attr =>
          if attr.name = "name" then (attr.value, acc.2)
          else if attr.name = "exported" then (acc.1, some (equalFold attr.value "true"))
          else acc) acc).2 = none
      ↔ acc.2 = none ∧ ∀ a ∈ attrs, a.name ≠ "exported" := by
  intro attrs
  induction attrs with
  | nil => intro acc; simp
  | cons a rest ih =>
    intro acc
    by_cases h1 : a.name = "name"
    · simp only [List.foldl_cons, if_pos h1, ih, List.mem_cons]
      constructor
      · rintro ⟨hacc, hall⟩
        exact ⟨hacc, fun x hx => by
          rcases hx with rfl | hx
          · rw [h1]; decide
          · exact hall x hx⟩
      · rintro ⟨hacc, hall⟩
        exact ⟨hacc, fun x hx => hall x (Or.inr hx)⟩
    · by_cases h2 : a.name = "exported"
      · simp only [List.foldl_cons, if_neg h1, if_pos h2, ih]
        constructor
        · rintro ⟨hacc, _⟩
          exact absurd hacc (by simp)
        · rintro ⟨_, hall⟩
          exact absurd h2 (hall a (List.mem_cons_self _ _))
      · simp only [List.foldl_cons, if_neg h1, if_neg h2, ih, List.mem_cons]
        constructor
        · rintro ⟨hacc, hall⟩
          exact ⟨hacc, fun x hx => by
            rcases hx with rfl | hx
            · exact h2
            · exact hall x hx⟩
        · rintro ⟨hacc, hall⟩
          exact ⟨hacc, fun x hx => hall x (Or.inr hx)⟩

theorem parseComponentAttrs_foldl_skip :
    ∀ (attrs : List XmlAttr) (acc : String × Option Bool),
      (∀ a ∈ attrs, a.name ≠ "exported") →
      (attrs.foldl
        (fun acc attr =>
          if attr.name = "name" then (attr.value, acc.2)
          else if attr.name = "exported" then (acc.1, some (equalFold attr.value "true"))
          else acc) acc).2 = acc.2 := by
  intro attrs
  induction attrs with
  | nil => intro acc _; rfl
  | cons a rest ih =>
    intro acc hall
    have ha : a.name ≠ "exported" := hall a (List.mem_cons_self _ _)
    have hrest : ∀ x ∈ rest, x.name ≠ "exported" :=
      fun x hx => hall x (List.mem_cons_of_mem _ hx)
    by_cases h1 : a.name = "name"
    · simp only [List.foldl_cons, if_pos h1]
      exact ih _ hrest
    · simp only [List.foldl_cons, if_neg h1, if_neg ha]
      exact ih _ hrest

/-- Claim C10: with the `exported` attribute present, the parsed tri-state is
explicitly-Exported iff the value equals "true" case-insensitively and
explicitly-NotExported for every other value; the Unspecified tri-state
arises exactly when the attribute is absent. -/
theorem claim_C10_exported_tristate :
    (∀ attrs : List XmlAttr,
      (parseComponentAttrs attrs).2 = none ↔ ∀ a ∈ attrs, a.name ≠ "exported")
    ∧ (∀ (l₁ l₂ : List XmlAttr) (v : String), (∀ a ∈ l₂, a.name ≠ "exported") →
        (parseComponentAttrs (l₁ ++ { name := "exported", value := v } :: l₂)).2
          = some (equalFold v "true"))
    ∧ ((parseComponentAttrs [{ name := "exported", value := "yes" }]).2 = some false
       ∧ (parseComponentAttrs [{ name := "exported", value := "1" }]).2 = some false
       ∧ (parseComponentAttrs [{ name := "exported", value := "TRUE" }]).2 = some true
       ∧ (parseComponentAttrs [{ name := "exported", value := "false" }]).2 = some false) := by
  refine ⟨?_, ?_, by decide, by decide, by decide, by decide⟩
  · intro attrs
    rw [parseComponentAttrs, parseComponentAttrs_foldl_none]
    simp
  · intro l₁ l₂ v hl₂
    unfold parseComponentAttrs
    rw [List.foldl_append, List.foldl_cons]
    rw [if_neg (by simp), if_pos rfl]
    exact parseComponentAttrs_foldl_skip l₂ _ hl₂

/-- Witness for C10: an attribute list carrying `exported="YES"` after a
name attribute parses to explicitly-NotExported. -/
theorem claim_C10_witness :
    (parseComponentAttrs
        [{ name := "name", value := "com.example.A" },
         { name := "exported", value := "YES" }]).2 = some (equalFold "YES" "true") :=
  claim_C10_exported_tristate.2.1
    [{ name := "name", value := "com.example.A" }] [] "YES" (by decide)


theorem buildOffsetsFrom_bounds :
    ∀ (d : List Nat) (i : Nat) (a : Int), a ∈ buildOffsetsFrom i d →
      (i : Int) < a ∧ a ≤ (i : Int) + d.length := by
  intro d
  induction d with
  | nil => intro i a ha; simp [buildOffsetsFrom] at ha
  | cons b rest ih =>
    intro i a ha
    unfold buildOffsetsFrom at ha
    simp only [List.length_cons]
    rcases List.mem_append.mp ha with h | h
    · by_cases hb : b = 10
      · simp [hb] at h
        subst h
        push_cast
        omega
      · simp [hb] at h
    · have := ih (i + 1) a h
      push_cast at this ⊢
      omega

theorem buildOffsetsFrom_pairwise :
    ∀ (d : List Nat) (i : Nat), (buildOffsetsFrom i d).Pairwise (· < ·) := by
  intro d
  induction d with
  | nil => intro i; simp [buildOffsetsFrom]
  | cons b rest ih =>
    intro i
    unfold buildOffsetsFrom
    by_cases hb : b = 10
    · subst hb
      rw [if_pos rfl, List.singleton_append, List.pairwise_cons]
      refine ⟨?_, ih (i + 1)⟩
      intro a ha
      have := (buildOffsetsFrom_bounds rest (i + 1) a ha).1
      push_cast at this ⊢
      omega
    · simpa [hb] using ih (i + 1)

theorem buildLineOffsets_pairwise (d : List Nat) :
    (buildLineOffsets d).Pairwise (· < ·) := by
  unfold buildLineOffsets
  rw [List.pairwise_cons]
  refine ⟨?_, buildOffsetsFrom_pairwise d 0⟩
  intro a ha
  have := (buildOffsetsFrom_bounds d 0 a ha).1
  omega

theorem buildLineOffsets_mono (d : List Nat) :
    ∀ i j : Nat, i ≤ j → j < (buildLineOffsets d).length →
      (buildLineOffsets d).getD i 0 ≤ (buildLineOffsets d).getD j 0 := by
  intro i j hij hj
  rcases Nat.lt_or_ge i j with h | h
  · have hi : i < (buildLineOffsets d).length := lt_trans h hj
    rw [List.getD_eq_getElem _ _ hi, List.getD_eq_getElem _ _ hj]
    exact le_of_lt ((List.pairwise_iff_getElem.mp (buildLineOffsets_pairwise d)) i j hi hj h)
  · have : i = j := le_antisymm hij h
    rw [this]

theorem buildLineOffsets_le_length (d : List Nat) :
    ∀ a ∈ buildLineOffsets d, a ≤ (d.length : Int) := by
  intro a ha
  unfold buildLineOffsets at ha
  rcases List.mem_cons.mp ha with rfl | ha
  · exact Int.ofNat_nonneg d.length
  · simpa using (buildOffsetsFrom_bounds d 0 a ha).2

theorem buildLineOffsets_length_pos (d : List Nat) : 0 < (buildLineOffsets d).length := by
  unfold buildLineOffsets
  simp

theorem buildLineOffsets_head (d : List Nat) : (buildLineOffsets d).getD 0 0 = 0 := rfl


theorem offsetToLineLoop_spec (L : List Int) (x : Int)
    (hmono : ∀ i j : Nat, i ≤ j → j < L.length → L.getD i 0 ≤ L.getD j 0) :
    ∀ (n : Nat) (lo hi : Int), (hi + 1 - lo).toNat ≤ n →
      0 ≤ lo → lo ≤ hi + 1 → hi < (L.length : Int) →
      (∀ j : Nat, (j : Int) < lo → j < L.length → L.getD j 0 ≤ x) →
      (∀ j : Nat, hi < (j : Int) → j < L.length → ¬ L.getD j 0 ≤ x) →
      0 ≤ offsetToLineLoop L x lo hi
      ∧ offsetToLineLoop L x lo hi ≤ (L.length : Int)
      ∧ (∀ j : Nat, (j : Int) < offsetToLineLoop L x lo hi → j < L.length → L.getD j 0 ≤ x)
      ∧ (∀ j : Nat, offsetToLineLoop L x lo hi ≤ (j : Int) → j < L.length →
          ¬ L.getD j 0 ≤ x) := by
  intro n
  induction n with
  | zero =>
    intro lo hi hfuel hlo hlohi hhi hbelow habove
    have hnotle : ¬ lo ≤ hi := by omega
    rw [offsetToLineLoop, if_neg hnotle]
    refine ⟨hlo, by omega, hbelow, ?_⟩
    intro j hj hjlen
    exact habove j (by omega) hjlen
  | succ n ih =>
    intro lo hi hfuel hlo hlohi hhi hbelow habove
    by_cases hle : lo ≤ hi
    · rw [offsetToLineLoop, if_pos hle]
      have hmid1 : lo ≤ (lo + hi) / 2 := by omega
      have hmid2 : (lo + hi) / 2 ≤ hi := by omega
      have hmidlen : ((lo + hi) / 2).toNat < L.length := by omega
      by_cases hcmp : L.getD ((lo + hi) / 2).toNat 0 ≤ x
      · rw [if_pos hcmp]
        refine ih ((lo + hi) / 2 + 1) hi (by omega) (by omega) (by omega) hhi ?_ habove
        intro j hj hjlen
        by_cases hjlo : (j : Int) < lo
        · exact hbelow j hjlo hjlen
        · refine le_trans (hmono j ((lo + hi) / 2).toNat (by omega) hmidlen) hcmp
      · rw [if_neg hcmp]
        refine ih lo ((lo + hi) / 2 - 1) (by omega) hlo (by omega) (by omega) hbelow ?_
        intro j hj hjlen
        by_cases hjhi : hi < (j : Int)
        · exact habove j hjhi hjlen
        · intro hcon
          exact hcmp (le_trans (hmono ((lo + hi) / 2).toNat j (by omega) hjlen) hcon)
    · rw [offsetToLineLoop, if_neg hle]
      refine ⟨hlo, by omega, hbelow, ?_⟩
      intro j hj hjlen
      exact habove j (by omega) hjlen

theorem offsetToLine_search (L : List Int) (x : Int)
    (hmono : ∀ i j : Nat, i ≤ j → j < L.length → L.getD i 0 ≤ L.getD j 0) :
    0 ≤ offsetToLine L x
    ∧ offsetToLine L x ≤ (L.length : Int)
    ∧ (∀ j : Nat, (j : Int) < offsetToLine L x → j < L.length → L.getD j 0 ≤ x)
    ∧ (∀ j : Nat, offsetToLine L x ≤ (j : Int) → j < L.length → ¬ L.getD j 0 ≤ x) := by
  unfold offsetToLine
  refine offsetToLineLoop_spec L x hmono ((L.length : Int) - 1 + 1 - 0).toNat 0
    ((L.length : Int) - 1) (by omega) (by omega) (by omega) (by omega) ?_ ?_
  · intro j hj _
    omega
  · intro j hj hjlen
    omega


/-- Claim C8: `offsetToLine` returns the greatest 1-based line number i with
lineStart[i-1] ≤ byteOffset; empty content yields line 1 for every offset;
an offset at or past end-of-content yields the last line; and for fixed
content the result is monotone in the byte offset. -/
theorem claim_C8_offsetToLine :
    ∀ (data : List Nat) (off : Nat),
      (1 ≤ offsetToLine (buildLineOffsets data) (off : Int)
        ∧ offsetToLine (buildLineOffsets data) (off : Int)
            ≤ ((buildLineOffsets data).length : Int)
        ∧ (buildLineOffsets data).getD
            ((offsetToLine (buildLineOffsets data) (off : Int)).toNat - 1) 0 ≤ (off : Int)
        ∧ (∀ i : Nat, 1 ≤ i → i ≤ (buildLineOffsets data).length →
            (buildLineOffsets data).getD (i - 1) 0 ≤ (off : Int) →
            (i : Int) ≤ offsetToLine (buildLineOffsets data) (off : Int)))
      ∧ (data = [] → offsetToLine (buildLineOffsets data) (off : Int) = 1)
      ∧ ((data.length : Int) ≤ (off : Int) →
          offsetToLine (buildLineOffsets data) (off : Int)
            = ((buildLineOffsets data).length : Int))
      ∧ (∀ off₂ : Nat, off ≤ off₂ →
          offsetToLine (buildLineOffsets data) (off : Int)
            ≤ offsetToLine (buildLineOffsets data) (off₂ : Int)) := by
  intro data off
  obtain ⟨h0, hlen, hbelow, habove⟩ :=
    offsetToLine_search (buildLineOffsets data) (off : Int) (buildLineOffsets_mono data)
  have hpos := buildLineOffsets_length_pos data
  have hone : 1 ≤ offsetToLine (buildLineOffsets data) (off : Int) := by
    by_contra hc
    push_neg at hc
    refine habove 0 (by omega) hpos ?_
    rw [buildLineOffsets_head]
    exact Int.ofNat_nonneg off
  refine ⟨⟨hone, hlen, ?_, ?_⟩, ?_, ?_, ?_⟩
  · refine hbelow _ (by omega) (by omega)
  · intro i hi1 hilen hle
    by_contra hc
    push_neg at hc
    refine habove (i - 1) (by omega) (by omega) hle
  · intro hempty
    subst hempty
    have : (buildLineOffsets ([] : List Nat)).length = 1 := rfl
    omega
  · intro hoff
    by_contra hc
    push_neg at hc
    have hj : (offsetToLine (buildLineOffsets data) (off : Int)).toNat
        < (buildLineOffsets data).length := by omega
    refine habove _ (by omega) hj ?_
    calc (buildLineOffsets data).getD
          (offsetToLine (buildLineOffsets data) (off : Int)).toNat 0
        ≤ (data.length : Int) := by
          refine buildLineOffsets_le_length data _ ?_
          rw [List.getD_eq_getElem _ _ hj]
          exact List.getElem_mem _
      _ ≤ (off : Int) := hoff
  · intro off₂ h12
    obtain ⟨h0b, hlenb, hbelowb, haboveb⟩ :=
      offsetToLine_search (buildLineOffsets data) (off₂ : Int) (buildLineOffsets_mono data)
    by_contra hc
    push_neg at hc
    have hj : (offsetToLine (buildLineOffsets data) (off₂ : Int)).toNat
        < (buildLineOffsets data).length := by omega
    refine haboveb _ (by omega) hj ?_
    calc (buildLineOffsets data).getD
          (offsetToLine (buildLineOffsets data) (off₂ : Int)).toNat 0
        ≤ (off : Int) := hbelow _ (by omega) hj
      _ ≤ (off₂ : Int) := by omega

/-- Witness for C8: empty content maps offset 7 to line 1, and offset 4 in a
two-line document maps to line 2. -/
theorem claim_C8_witness :
    offsetToLine (buildLineOffsets []) ((7 : Nat) : Int) = 1
    ∧ ((3 : Nat) ≤ (9 : Nat) →
        offsetToLine (buildLineOffsets [97, 10, 98]) ((3 : Nat) : Int)
          ≤ offsetToLine (buildLineOffsets [97, 10, 98]) ((9 : Nat) : Int)) :=
  ⟨(claim_C8_offsetToLine [] 7).2.1 rfl,
   fun h => (claim_C8_offsetToLine [97, 10, 98] 3).2.2.2 9 h⟩




theorem parseStep_proj (L : List Int) (s : ParseState) (t : XmlToken) :
    parseProj (parseStep L s t) = parseCtxStep L (parseProj s) t := rfl

theorem foldl_parseStep_proj (L : List Int) :
    ∀ (toks : List XmlToken) (s : ParseState),
      parseProj (toks.foldl (parseStep L) s) = toks.foldl (parseCtxStep L) (parseProj s) := by
  intro toks
  induction toks with
  | nil => intro s; rfl
  | cons t rest ih =>
    intro s
    rw [List.foldl_cons, List.foldl_cons, ih, parseStep_proj]

theorem parseCtxStep_ignored (L : List Int) (st : ParseCtx) (t : XmlToken)
    (h : isIgnoredToken t = true) : parseCtxStep L st t = st := by
  cases t with
  | startElem name attrs off =>
    have hn : name ∉ knownElementNames := by
      simp only [isIgnoredToken, Bool.not_eq_true'] at h
      simpa using h
    simp only [knownElementNames, List.mem_cons, List.not_mem_nil, or_false] at hn
    push_neg at hn
    obtain ⟨h1, h2, h3, h4, h5, h6, h7, h8, h9, h10, h11, h12⟩ := hn
    simp [parseCtxStep, h1, h2, h3, h4, h5, h6, h7, h8, h9, h10, h11, h12]
  | endElem name off =>
    have hn : name ∉ knownElementNames := by
      simp only [isIgnoredToken, Bool.not_eq_true'] at h
      simpa using h
    simp only [knownElementNames, List.mem_cons, List.not_mem_nil, or_false] at hn
    push_neg at hn
    obtain ⟨h1, h2, h3, h4, h5, h6, h7, h8, h9, h10, h11, h12⟩ := hn
    simp [parseCtxStep, h5, h6, h7, h8, h9, h10]
  | otherTok off => rfl

theorem foldl_ctx_filter (L : List Int) :
    ∀ (toks : List XmlToken) (st : ParseCtx),
      (toks.filter (fun t => !(isIgnoredToken t))).foldl (parseCtxStep L) st
        = toks.foldl (parseCtxStep L) st := by
  intro toks
  induction toks with
  | nil => intro st; rfl
  | cons t rest ih =>
    intro st
    by_cases hig : isIgnoredToken t = true
    · rw [List.filter_cons_of_neg (by simp [hig]), List.foldl_cons,
        parseCtxStep_ignored L st t hig, ih]
    · rw [List.filter_cons_of_pos (by simp_all), List.foldl_cons, List.foldl_cons, ih]

/-- Claim C1: parsing fails exactly when the token stream itself fails (and
with the wrapped malformed-document error); unknown or vendor-specific
tokens are invisible to the resulting manifest; and on the worst-case empty
model the validators still run, reporting the missing target version, while
a malformed document surfaces as a recorded checker failure rather than an
unhandled one. -/
theorem claim_C1_tolerant_parse :
    (∀ (data : List Nat) (tokens : List XmlToken),
      ∃ m, parseTokens data tokens none = Except.ok m)
    ∧ (∀ (data : List Nat) (tokens : List XmlToken) (off : Int) (e : String),
        parseTokens data tokens (some (off, e))
          = Except.error ("XML parse error at offset " ++ toString off ++ ": " ++ e))
    ∧ (∀ (data : List Nat) (tokens : List XmlToken) (tokErr : Option (Int × String)),
        parseTokens data (tokens.filter (fun t => !(isIgnoredToken t))) tokErr
          = parseTokens data tokens tokErr)
    ∧ (∃ f ∈ validateAll {}, f.checkID = RuleTargetSDK ∧ f.severity = SeverityCritical)
    ∧ (∀ (data : List Nat) (tokens : List XmlToken) (off : Int) (e : String),
        manifestScannerRun (parseTokens data tokens (some (off, e)))
          = (some { checkID := "manifest", passed := false,
                    err := some ("XML parse error at offset " ++ toString off ++ ": " ++ e) },
             some ("XML parse error at offset " ++ toString off ++ ": " ++ e))) := by
  refine ⟨fun data tokens => ⟨_, rfl⟩, fun _ _ _ _ => rfl, ?_, by decide, fun _ _ _ _ => rfl⟩
  intro data tokens tokErr
  unfold parseTokens
  cases tokErr with
  | some pair => rfl
  | none =>
    have hm : ∀ toks : List XmlToken,
        (toks.foldl (parseStep (buildLineOffsets data)) {}).m
          = (toks.foldl (parseCtxStep (buildLineOffsets data)) (parseProj {})).m := by
      intro toks
      rw [← foldl_parseStep_proj]
      rfl
    simp only []
    rw [Except.ok.injEq]
    rw [hm, hm, foldl_ctx_filter]

/-- Witness for C1: a stream holding one unknown vendor element and one
known element parses without error to the same manifest as the stream
without the vendor element. -/
theorem claim_C1_witness :
    parseTokens [] (List.filter (fun t => !(isIgnoredToken t))
        [XmlToken.startElem "vendor:thing" [] 0,
         XmlToken.startElem "uses-sdk" [{ name := "targetSdkVersion", value := "35" }] 0,
         XmlToken.endElem "vendor:thing" 0]) none
      = parseTokens []
        [XmlToken.startElem "vendor:thing" [] 0,
         XmlToken.startElem "uses-sdk" [{ name := "targetSdkVersion", value := "35" }] 0,
         XmlToken.endElem "vendor:thing" 0] none :=
  claim_C1_tolerant_parse.2.2.1 []
    [XmlToken.startElem "vendor:thing" [] 0,
     XmlToken.startElem "uses-sdk" [{ name := "targetSdkVersion", value := "35" }] 0,
     XmlToken.endElem "vendor:thing" 0] none

end Playcheck
